import Mathlib

/-!
Shallow embedding of the SolWatch change-data-capture pipeline.

Sources embedded here:
  * `src/core/src/heimdall_plugin.rs` — the Geyser plugin `Heimdall`:
    `on_load` (program watch-list parsing), `update_account` (ingestion
    filter), `update_user_sol_balance`, `update_user_token_holding`,
    `update_listing` (projection-store writes and notifications).
  * `src/stream/src/main.rs` — the fan-out service:
    `fetch_user_assets`, `fetch_listing`, and the dispatch step of
    `start_listener`.

Machine integers are modelled as `Nat` (all quantities involved are
unsigned in the source: `u8`, `u32`, `u64`, `u128`); signed database
column types (`BIGINT`, `SMALLINT`) are modelled as `Int` via the exact
`as i64` / `as i16` casts the source performs when binding.  The `f64`
field `base_price` is carried as its raw 8-byte little-endian bit
pattern (a `Nat`): no claim below depends on float arithmetic, and the
source never computes with it, only copies it.  The store's
`sol_balance NUMERIC` column is modelled as `Rat` (the source computes
`lamports as f64 / 1e9`; the claims below only copy this value, never
compute with it).

Database calls can fail at runtime; each call site's success or failure
is an input to the embedded function (a `DbOracle`), while the data a
successful fetch returns is determined by the embedded store state.
-/

/-! ### Decimal text codec

The source writes every `u128` column by binding `value.to_string()`
and casting the text to `NUMERIC` (`update_listing`), and reads it back
with `column::text` (`fetch_listing`).  `natDecDigits`/`natDecRepr`
model Rust's decimal `to_string`; `decParseNat` models the exact-value
reading of a decimal digit string (the `NUMERIC` cast / text render
round trip). -/

/-- Little-endian base-`b` digits of `n`, with explicit fuel so that the
recursion is structural (fuel `n + 1` always suffices). -/
def natDigitsAux (b : Nat) : Nat → Nat → List Nat
  | 0, _ => []
  | fuel + 1, n => if n = 0 then [] else n % b :: natDigitsAux b fuel (n / b)

/-- Little-endian decimal digits of `n` (empty for `0`). -/
def natDecDigits (n : Nat) : List Nat := natDigitsAux 10 (n + 1) n

/-- Decimal string of `n`, as Rust's `u128::to_string` renders it. -/
def natDecRepr (n : Nat) : String :=
  if n = 0 then "0"
  else String.mk ((natDecDigits n).reverse.map (fun d => Char.ofNat (48 + d)))

/-- Value of a little-endian digit list in base `b`. -/
def digitsVal (b : Nat) (ds : List Nat) : Nat :=
  ds.foldr (fun d acc => d + b * acc) 0

/-- Decimal digit value of a character, if it is `0`..`9`. -/
def decDigitOf (c : Char) : Option Nat :=
  if 48 ≤ c.toNat ∧ c.toNat ≤ 57 then some (c.toNat - 48) else none

/-- Run `f` over the list in order, failing as soon as one element
maps to `none` (the per-element loop shape of the source's decoders). -/
def collectSome : List α → (α → Option β) → Option (List β)
  | [], _ => some []
  | a :: as, f => (f a).bind (fun b => (collectSome as f).map (fun bs => b :: bs))

/-- Exact value of a decimal digit string; `none` when the string is
empty or holds a non-digit (the `NUMERIC` cast of invalid text fails). -/
def decParseNat (s : String) : Option Nat :=
  match collectSome s.toList decDigitOf with
  | none => none
  | some ds => if ds = [] then none else some (digitsVal 10 ds.reverse)

/-- The value a `NUMERIC` column holds after `CAST(text AS NUMERIC)`;
for the decimal strings the source binds, the cast always succeeds. -/
def numericOfText (s : String) : Nat := (decParseNat s).getD 0

/-! ### Base-58 codec (the `bs58` crate, as used by the source). -/

def bs58Alphabet : List Char :=
  "123456789ABCDEFGHJKLMNPQRSTUVWXYZabcdefghijkmnopqrstuvwxyz".toList

/-- Index of `c` in the list, counting from 0. -/
def alphaIdx : List Char → Char → Option Nat
  | [], _ => none
  | a :: as, c => if a = c then some 0 else (alphaIdx as c).map (· + 1)

/-- Little-endian base-256 bytes of `n` (empty for `0`), fuelled. -/
def natLeBytes (n : Nat) : List Nat := natDigitsAux 256 (n + 1) n

/-- `bs58::decode(s).into_vec()`: `none` on a character outside the
base-58 alphabet; each leading `1` contributes one leading zero byte. -/
def bs58decode (s : String) : Option (List Nat) :=
  match collectSome s.toList (alphaIdx bs58Alphabet) with
  | none => none
  | some digits =>
      let n := digits.foldl (fun acc d => acc * 58 + d) 0
      let z := (digits.takeWhile (· = 0)).length
      some (List.replicate z 0 ++ (natLeBytes n).reverse)

/-- `bs58::encode(bytes).into_string()`: each leading zero byte becomes
a `1`; the rest is the big-endian base-58 rendering of the value. -/
def bs58encode (bytes : List Nat) : String :=
  let z := (bytes.takeWhile (· = 0)).length
  let n := bytes.foldl (fun acc b => acc * 256 + b) 0
  let ds := (natDigitsAux 58 (n + 1) n).reverse
  String.mk (List.replicate z '1' ++ ds.map (fun d => bs58Alphabet.getD d '1'))

/-- `spl_token::ID`, the token-program identifier the source compares
account owners against (its 32 raw bytes). -/
def splTokenProgramId : List Nat :=
  (bs58decode "TokenkegQfeZyiNwAJbNbGKPFXCWuBvf9Ss623VQ5DA").getD []

/-! ### Token-holding merge

`update_user_token_holding`, lines 311–320: `tokens.retain(|t|
t["mint"] != mint)` followed by a push of `{mint, amount}` when
`amount > 0`.  Holdings rows are the objects this same code writes. -/

structure TokenHolding where
  mint : String
  amount : Nat
deriving DecidableEq, Repr

/-- The merge step of `update_user_token_holding`: drop every entry for
`mint`, then append `{mint, amount}` only when `amount > 0`. -/
def merge_token_holding (holdings : List TokenHolding) (mint : String) (amount : Nat) :
    List TokenHolding :=
  let kept := holdings.filter (fun t => t.mint ≠ mint)
  if amount > 0 then kept ++ [{ mint := mint, amount := amount }] else kept

/-! ### Borsh decoding of `AnchorListing`

`update_account`, lines 217–227: when a tracked program owns the
account and `data.len() > 8`, the bytes after the first 8 are fed to
`AnchorListing::deserialize(&mut slice)` (borsh).  Borsh reads each
field in declaration order; the `String` field is a `u32`
little-endian length followed by that many bytes, which must be valid
UTF-8; `deserialize` on a mutable slice leaves unread bytes behind. -/

/-- UTF-8 validity of a byte list, as Rust's `String::from_utf8`
checks it (shortest-form encodings, no surrogates, max U+10FFFF). -/
def isValidUtf8 : List Nat → Bool
  | [] => true
  | b0 :: rest =>
    if b0 < 0x80 then isValidUtf8 rest
    else match rest with
      | b1 :: rest1 =>
        if 0xC2 ≤ b0 ∧ b0 ≤ 0xDF then
          (0x80 ≤ b1 ∧ b1 ≤ 0xBF) && isValidUtf8 rest1
        else match rest1 with
          | b2 :: rest2 =>
            if b0 = 0xE0 then
              ((0xA0 ≤ b1 ∧ b1 ≤ 0xBF) && (0x80 ≤ b2 ∧ b2 ≤ 0xBF)) && isValidUtf8 rest2
            else if (0xE1 ≤ b0 ∧ b0 ≤ 0xEC) ∨ b0 = 0xEE ∨ b0 = 0xEF then
              ((0x80 ≤ b1 ∧ b1 ≤ 0xBF) && (0x80 ≤ b2 ∧ b2 ≤ 0xBF)) && isValidUtf8 rest2
            else if b0 = 0xED then
              ((0x80 ≤ b1 ∧ b1 ≤ 0x9F) && (0x80 ≤ b2 ∧ b2 ≤ 0xBF)) && isValidUtf8 rest2
            else match rest2 with
              | b3 :: rest3 =>
                if b0 = 0xF0 then
                  (((0x90 ≤ b1 ∧ b1 ≤ 0xBF) && (0x80 ≤ b2 ∧ b2 ≤ 0xBF)) &&
                    (0x80 ≤ b3 ∧ b3 ≤ 0xBF)) && isValidUtf8 rest3
                else if 0xF1 ≤ b0 ∧ b0 ≤ 0xF3 then
                  (((0x80 ≤ b1 ∧ b1 ≤ 0xBF) && (0x80 ≤ b2 ∧ b2 ≤ 0xBF)) &&
                    (0x80 ≤ b3 ∧ b3 ≤ 0xBF)) && isValidUtf8 rest3
                else if b0 = 0xF4 then
                  (((0x80 ≤ b1 ∧ b1 ≤ 0x8F) && (0x80 ≤ b2 ∧ b2 ≤ 0xBF)) &&
                    (0x80 ≤ b3 ∧ b3 ≤ 0xBF)) && isValidUtf8 rest3
                else false
              | [] => false
          | [] => false
      | [] => false

/-- Read `n` raw bytes, returning them and the remaining input;
`none` on a short read. -/
def readBytes (n : Nat) (b : List Nat) : Option (List Nat × List Nat) :=
  if n ≤ b.length then some (b.take n, b.drop n) else none

/-- Read a `k`-byte little-endian unsigned integer. -/
def readUIntLe (k : Nat) (b : List Nat) : Option (Nat × List Nat) :=
  (readBytes k b).map (fun p => (digitsVal 256 p.1, p.2))

/-- Read a borsh `String`: `u32` LE length, then that many bytes,
which must be valid UTF-8.  The name is kept as its UTF-8 bytes. -/
def readBorshString (b : List Nat) : Option (List Nat × List Nat) :=
  match readUIntLe 4 b with
  | none => none
  | some (len, b1) =>
    match readBytes len b1 with
    | none => none
    | some (bytes, b2) => if isValidUtf8 bytes then some (bytes, b2) else none

/-- An 8-byte little-endian bit pattern is an IEEE-754 double NaN iff
its exponent field is all ones and its mantissa is nonzero. -/
def isNanF64Bits (bits : Nat) : Bool :=
  (bits / 2 ^ 52) % 2 ^ 11 = 2 ^ 11 - 1 ∧ bits % 2 ^ 52 ≠ 0

/-- Borsh `f64` deserialization: 8 little-endian bytes, kept as the
raw bit pattern; borsh refuses to deserialize NaN bit patterns (its
float impls return an error on `is_nan()`), so a NaN `base_price`
fails the whole decode. -/
def readF64 (b : List Nat) : Option (Nat × List Nat) :=
  match readUIntLe 8 b with
  | none => none
  | some (bits, r) => if isNanF64Bits bits then none else some (bits, r)

/-- `AnchorListing` (`src/core/src/heimdall_plugin.rs`, lines 31–45):
the account layout read straight from Solana account data.  `name`
holds the string's UTF-8 bytes; `base_price` holds the raw `f64` bit
pattern (8 LE bytes, as a `Nat`); `mint` holds the 32 raw bytes. -/
structure AnchorListing where
  name : List Nat
  seed : Nat
  mint : List Nat
  funding_goal : Nat
  pool_mint_supply : Nat
  funding_raised : Nat
  available_tokens : Nat
  base_price : Nat
  tokens_sold : Nat
  bump : Nat
  vault_bump : Nat
  mint_bump : Nat
deriving DecidableEq, Repr

/-- Borsh `AnchorListing::deserialize(&mut slice)`: reads the fields in
declaration order and returns the unread remainder of the input.
Trailing bytes are not an error — `deserialize` (unlike
`try_from_slice`) leaves them in the slice. -/
def deserializeAnchorListing (b : List Nat) : Option (AnchorListing × List Nat) :=
  match readBorshString b with
  | none => none
  | some (name, b1) =>
  match readUIntLe 8 b1 with
  | none => none
  | some (seed, b2) =>
  match readBytes 32 b2 with
  | none => none
  | some (mint, b3) =>
  match readUIntLe 8 b3 with
  | none => none
  | some (funding_goal, b4) =>
  match readUIntLe 16 b4 with
  | none => none
  | some (pool_mint_supply, b5) =>
  match readUIntLe 8 b5 with
  | none => none
  | some (funding_raised, b6) =>
  match readUIntLe 16 b6 with
  | none => none
  | some (available_tokens, b7) =>
  match readF64 b7 with
  | none => none
  | some (base_price, b8) =>
  match readUIntLe 16 b8 with
  | none => none
  | some (tokens_sold, b9) =>
  match readUIntLe 1 b9 with
  | none => none
  | some (bump, b10) =>
  match readUIntLe 1 b10 with
  | none => none
  | some (vault_bump, b11) =>
  match readUIntLe 1 b11 with
  | none => none
  | some (mint_bump, b12) =>
    some ({ name := name, seed := seed, mint := mint, funding_goal := funding_goal,
            pool_mint_supply := pool_mint_supply, funding_raised := funding_raised,
            available_tokens := available_tokens, base_price := base_price,
            tokens_sold := tokens_sold, bump := bump, vault_bump := vault_bump,
            mint_bump := mint_bump }, b12)

/-- The listing-decode step of `update_account` (lines 219–224): only
payloads with `data.len() > 8` are decoded at all; the first 8 bytes
(type discriminator) are skipped; the result is the parsed record, or
`none` when no decode was attempted or borsh failed. -/
def decode_listing (payload : List Nat) : Option AnchorListing :=
  if payload.length > 8 then
    (deserializeAnchorListing (payload.drop 8)).map Prod.fst
  else none

/-! ### SPL token-account unpack

`update_account`, lines 203–211: `TokenAccount::unpack(&data)` requires
exactly 165 bytes, valid `COption` tags (4-byte `[0,0,0,0]` or
`[1,0,0,0]`) for delegate / is_native / close_authority, a state byte
in `{0,1,2}`, and — via `Pack::unpack` — an initialized account
(state ≠ 0).  Only `mint`, `owner` and `amount` are used downstream. -/

structure TokenAccountData where
  mint : List Nat
  owner : List Nat
  amount : Nat
deriving DecidableEq, Repr

/-- A 4-byte `COption` tag is valid iff it is `[0,0,0,0]` or `[1,0,0,0]`. -/
def coptionTagOk (b : List Nat) : Bool :=
  b = [0, 0, 0, 0] ∨ b = [1, 0, 0, 0]

/-- `spl_token::state::Account::unpack`. -/
def unpackTokenAccount (data : List Nat) : Option TokenAccountData :=
  if data.length = 165 then
    let state := (data.drop 108).headD 0
    if coptionTagOk ((data.drop 72).take 4) ∧
        coptionTagOk ((data.drop 109).take 4) ∧
        coptionTagOk ((data.drop 129).take 4) ∧
        (state = 1 ∨ state = 2) then
      some { mint := data.take 32, owner := (data.drop 32).take 32,
             amount := digitsVal 256 ((data.drop 64).take 8) }
    else none
  else none

/-! ### Store state, oracle, errors -/

/-- One row of a per-user append-only table
(`user_<pubkey> (timestamp, sol_balance, token_holdings, nft_holdings)`).
Rows are kept in append order; `timestamp` is the
`DEFAULT CURRENT_TIMESTAMP` value at insert time.  The
`ORDER BY timestamp DESC LIMIT 1` fetches read the most recently
appended row (timestamps are non-decreasing in append order; the model
breaks ties by append order). -/
structure SnapshotRow where
  timestamp : Nat
  sol_balance : Rat
  token_holdings : List TokenHolding
  nft_holdings : List String
deriving DecidableEq, Repr

/-- One row of the `listings` table (primary key: the account text).
`seed`, `funding_goal`, `funding_raised` are stored through the
source's `as i64` casts and `bump`/`vault_bump`/`mint_bump` through
`as i16`; the three `NUMERIC` 128-bit columns store the exact value
obtained by casting the bound decimal text. -/
structure ListingRow where
  name : List Nat
  seed : Int
  mint : String
  funding_goal : Int
  pool_mint_supply : Nat
  funding_raised : Int
  available_tokens : Nat
  base_price : Nat
  tokens_sold : Nat
  bump : Int
  vault_bump : Int
  mint_bump : Int
  updated_at : Nat
deriving DecidableEq, Repr

/-- `u64 as i64` (two's-complement reinterpretation). -/
def i64OfU64 (n : Nat) : Int :=
  if n < 2 ^ 63 then (n : Int) else (n : Int) - 2 ^ 64

/-- `i64 as u64` (the inverse reinterpretation, used by `fetch_listing`). -/
def u64OfI64 (i : Int) : Nat := (i % 2 ^ 64).toNat

/-- `u8 as i16` (always in range, no wrap). -/
def i16OfU8 (n : Nat) : Int := (n : Int)

/-- A notification published with `pg_notify(channel, payload)`; the
payload is the JSON object `{"account": account, "action": action}`. -/
structure Notification where
  channel : String
  account : String
  action : String
deriving DecidableEq, Repr

/-- The embedded database: per-user append-only tables keyed by table
name, the `listings` table as an association list in row order, and
the ordered log of published notifications. -/
structure DbState where
  users : String → List SnapshotRow
  listings : List (String × ListingRow)
  notes : List Notification

/-- Success or failure of each fallible database round trip inside one
`update_account` call.  What a successful fetch returns is determined
by `DbState`; the oracle only decides which calls fail. -/
structure DbOracle where
  solWriteOk : Bool
  solNotifyOk : Bool
  tokenFetchOk : Bool
  tokenWriteOk : Bool
  tokenNotifyOk : Bool
  listingWriteOk : Bool
  listingNotifyOk : Bool
deriving DecidableEq, Repr

/-- The `GeyserPluginError` variants `update_account` can produce. -/
inductive PluginError where
  | accountsUpdateError (msg : String)
  | custom (msg : String)
deriving DecidableEq, Repr

/-- `user_pubkey.replace(&['.', '-'], "_")`. -/
def sanitizeIdent (s : String) : String :=
  String.mk (s.toList.map (fun c => if c = '.' ∨ c = '-' then '_' else c))

/-- The per-user table name `user_<sanitized pubkey>`. -/
def tableName (user : String) : String := "user_" ++ sanitizeIdent user

/-- `SELECT ... ORDER BY timestamp DESC LIMIT 1` on a user table. -/
def latestRow (st : DbState) (tbl : String) : Option SnapshotRow :=
  (st.users tbl).getLast?

/-- Append one row to a user table. -/
def appendRow (st : DbState) (tbl : String) (row : SnapshotRow) : DbState :=
  { st with users := fun n => if n = tbl then st.users tbl ++ [row] else st.users n }

/-- Append one published notification. -/
def pushNote (st : DbState) (n : Notification) : DbState :=
  { st with notes := st.notes ++ [n] }

/-- `lamports as f64 / 1_000_000_000.0` — the stored `sol_balance`
value (exact rational; the claims below never compute with it). -/
def lamportsToSol (lamports : Nat) : Rat := (lamports : Rat) / 1000000000

/-! ### The three projection-store write operations -/

/-- `Heimdall::update_user_sol_balance` (lines 234–274).  The INSERT
carries the new balance and copies `token_holdings` / `nft_holdings`
from the latest prior row (`COALESCE(subquery, [])`); its result is
discarded (`let _ = ...`, line 249), and `pg_notify('user_updates', …)`
is then issued unconditionally; a notify failure is only logged.  The
function always returns `Ok(())`. -/
def update_user_sol_balance (st : DbState) (o : DbOracle) (now : Nat)
    (user_pubkey : String) (lamports : Nat) : DbState × Except PluginError Unit :=
  let user_table := tableName user_pubkey
  let prev := latestRow st user_table
  let newRow : SnapshotRow :=
    { timestamp := now
      sol_balance := lamportsToSol lamports
      token_holdings := (prev.map SnapshotRow.token_holdings).getD []
      nft_holdings := (prev.map SnapshotRow.nft_holdings).getD [] }
  let st1 := if o.solWriteOk then appendRow st user_table newRow else st
  let st2 :=
    if o.solNotifyOk then pushNote st1 ⟨"user_updates", user_pubkey, "user_update"⟩ else st1
  (st2, Except.ok ())

/-- `Heimdall::update_user_token_holding` (lines 276–359).  The latest
row is fetched with `fetch_optional`; the `match` treats both a query
error and an absent row as empty defaults (its `_ =>` arm).  The
`row.try_get::<serde_json::Value>(..)?` column decodes of the
`Ok(Some(row))` arm are deterministic and cannot fail on the rows this
pipeline writes (both jsonb columns are always bound non-NULL, which
is also the only shape `SnapshotRow` represents), so the function has
no error path and always returns `Ok(())`.  On a successful INSERT
(which copies `sol_balance` from the latest prior row,
`COALESCE(subquery, 0)`) the `user_update` notification is sent; a
failed INSERT is only logged and sends no notification. -/
def update_user_token_holding (st : DbState) (o : DbOracle) (now : Nat)
    (user_pubkey : String) (mint : String) (amount : Nat) :
    DbState × Except PluginError Unit :=
  let user_table := tableName user_pubkey
  let fetched := if o.tokenFetchOk then latestRow st user_table else none
  let (tokens, nfts) :=
    match fetched with
    | some row => (row.token_holdings, row.nft_holdings)
    | none => ([], [])
  let tokens2 := merge_token_holding tokens mint amount
  let prevSol := ((latestRow st user_table).map SnapshotRow.sol_balance).getD 0
  if o.tokenWriteOk then
    let st1 := appendRow st user_table
      { timestamp := now, sol_balance := prevSol,
        token_holdings := tokens2, nft_holdings := nfts }
    let st2 :=
      if o.tokenNotifyOk then pushNote st1 ⟨"user_updates", user_pubkey, "user_update"⟩
      else st1
    (st2, Except.ok ())
  else (st, Except.ok ())

/-- `Listing` (lines 48–62): the database/JSON shape, with `mint`
base-58 encoded. -/
structure Listing where
  name : List Nat
  seed : Nat
  mint : String
  funding_goal : Nat
  pool_mint_supply : Nat
  funding_raised : Nat
  available_tokens : Nat
  base_price : Nat
  tokens_sold : Nat
  bump : Nat
  vault_bump : Nat
  mint_bump : Nat
deriving DecidableEq, Repr

/-- The `Listing` built at the top of `update_listing` (lines 362–375). -/
def listingOfAnchor (al : AnchorListing) : Listing :=
  { name := al.name, seed := al.seed, mint := bs58encode al.mint,
    funding_goal := al.funding_goal, pool_mint_supply := al.pool_mint_supply,
    funding_raised := al.funding_raised, available_tokens := al.available_tokens,
    base_price := al.base_price, tokens_sold := al.tokens_sold,
    bump := al.bump, vault_bump := al.vault_bump, mint_bump := al.mint_bump }

/-- The row the INSERT of `update_listing` binds (lines 397–414):
`u64` columns through `as i64`, `u8` columns through `as i16`, the
three `u128` columns as `to_string()` text cast to `NUMERIC`, and
`updated_at = CURRENT_TIMESTAMP`. -/
def listingRowOf (now : Nat) (l : Listing) : ListingRow :=
  { name := l.name, seed := i64OfU64 l.seed, mint := l.mint,
    funding_goal := i64OfU64 l.funding_goal,
    pool_mint_supply := numericOfText (natDecRepr l.pool_mint_supply),
    funding_raised := i64OfU64 l.funding_raised,
    available_tokens := numericOfText (natDecRepr l.available_tokens),
    base_price := l.base_price,
    tokens_sold := numericOfText (natDecRepr l.tokens_sold),
    bump := i16OfU8 l.bump, vault_bump := i16OfU8 l.vault_bump,
    mint_bump := i16OfU8 l.mint_bump, updated_at := now }

/-- `INSERT ... ON CONFLICT (account) DO UPDATE SET ...` on the
`listings` table: replace the row when the key is present, insert it
otherwise (one atomic statement). -/
def upsertAssoc (tbl : List (String × ListingRow)) (account : String) (row : ListingRow) :
    List (String × ListingRow) :=
  if tbl.any (fun e => e.1 = account) then
    tbl.map (fun e => if e.1 = account then (account, row) else e)
  else tbl ++ [(account, row)]

/-- `Heimdall::update_listing` (lines 361–437): the upsert, then — only
on success — the `account_update` notification; failures of either are
only logged.  The surrounding `for_each` ignores the outcome, so the
function returns only the new state. -/
def update_listing (st : DbState) (o : DbOracle) (now : Nat)
    (account_pubkey : String) (al : AnchorListing) : DbState :=
  let listing := listingOfAnchor al
  if o.listingWriteOk then
    let st1 := { st with
      listings := upsertAssoc st.listings account_pubkey (listingRowOf now listing) }
    if o.listingNotifyOk then
      pushNote st1 ⟨"account_updates", account_pubkey, "account_update"⟩
    else st1
  else st

/-! ### The ingestion filter `update_account` -/

/-- The fields of `ReplicaAccountInfoV3` that `update_account` uses. -/
structure AccountInfo where
  pubkey : List Nat
  lamports : Nat
  owner : List Nat
  data : List Nat
deriving DecidableEq, Repr

/-- `ReplicaAccountInfoVersions`: the host's event shapes.  Only
`V0_0_3` is handled; the code returns before touching the payload of
the other two, so the model carries no payload for them. -/
inductive ReplicaAccountInfo where
  | v0_0_1
  | v0_0_2
  | v0_0_3 (info : AccountInfo)
deriving DecidableEq, Repr

def unsupportedVersionMsg : String :=
  "Unsupported version, please upgrade your Solana CLI version"

/-- The tracked-program fold of `update_account` (lines 217–227): for
each watched program equal to the event's owner, decode the payload
(only when `data.len() > 8`, skipping the 8 discriminator bytes) and,
on success, run `update_listing`. -/
def programsBranch (o : DbOracle) (now : Nat) (programs : List (List Nat))
    (account_pubkey : String) (info : AccountInfo) (st : DbState) : DbState :=
  programs.foldl (fun acc program =>
    if program = info.owner then
      if info.data.length > 8 then
        match deserializeAnchorListing (info.data.drop 8) with
        | some (al, _) => update_listing acc o now account_pubkey al
        | none => acc
      else acc
    else acc) st

/-- The tracked-user sol-balance branch of `update_account` (lines
197–200): runs `update_user_sol_balance` when the event's pubkey is a
tracked user; its result is propagated with `?`. -/
def userSolStep (st : DbState) (o : DbOracle) (now : Nat)
    (tracked_users : Option (List String)) (account_pubkey : String) (lamports : Nat) :
    DbState × Except PluginError Unit :=
  match tracked_users with
  | some users =>
      if users.contains account_pubkey then
        update_user_sol_balance st o now account_pubkey lamports
      else (st, Except.ok ())
  | none => (st, Except.ok ())

/-- The token-account branch of `update_account` (lines 202–213): when
the event's owner is the token program and the payload unpacks as a
token account of a tracked user, runs `update_user_token_holding`; its
result is propagated with `?`. -/
def userTokenStep (st : DbState) (o : DbOracle) (now : Nat)
    (tracked_users : Option (List String)) (info : AccountInfo) :
    DbState × Except PluginError Unit :=
  match tracked_users with
  | some users =>
      if info.owner.length = 32 ∧ info.owner = splTokenProgramId then
        match unpackTokenAccount info.data with
        | some token_account =>
            let owner := bs58encode token_account.owner
            if users.contains owner then
              update_user_token_holding st o now owner
                (bs58encode token_account.mint) token_account.amount
            else (st, Except.ok ())
        | none => (st, Except.ok ())
      else (st, Except.ok ())
  | none => (st, Except.ok ())

/-- `Heimdall::update_account` (lines 179–230).  `V0_0_1`/`V0_0_2`
events are rejected up front with `AccountsUpdateError`.  For `V0_0_3`:
the tracked-user sol-balance branch and the token-account branch each
propagate an error with `?` (aborting the rest of the function); the
tracked-program fold runs last.  `tracked_users` is
`config.tracked_users` (an `Option`), `programs` the decoded watch
list, `now` the database clock for this call. -/
def update_account (st : DbState) (o : DbOracle) (now : Nat)
    (programs : List (List Nat)) (tracked_users : Option (List String))
    (account : ReplicaAccountInfo) : DbState × Except PluginError Unit :=
  match account with
  | ReplicaAccountInfo.v0_0_1 =>
      (st, Except.error (PluginError.accountsUpdateError unsupportedVersionMsg))
  | ReplicaAccountInfo.v0_0_2 =>
      (st, Except.error (PluginError.accountsUpdateError unsupportedVersionMsg))
  | ReplicaAccountInfo.v0_0_3 info =>
    let account_pubkey := bs58encode info.pubkey
    match userSolStep st o now tracked_users account_pubkey info.lamports with
    | (st1, Except.error e) => (st1, Except.error e)
    | (st1, Except.ok ()) =>
      match userTokenStep st1 o now tracked_users info with
      | (st2, Except.error e) => (st2, Except.error e)
      | (st2, Except.ok ()) =>
          (programsBranch o now programs account_pubkey info st2, Except.ok ())

/-! ### `on_load` program watch-list parsing

Lines 165–171: for each configured program string,
`bs58::decode(account).into_vec().unwrap()` (panics on invalid
base-58) and then `copy_from_slice(&decoded[0..32])` (panics when
fewer than 32 bytes were decoded).  `none` models a panic — the
function neither returns `Ok` nor a `ConfigError`. -/
def onLoadProcessPrograms : List String → Option (List (List Nat))
  | [] => some []
  | account :: rest =>
    match bs58decode account with
    | none => none
    | some bytes =>
      if 32 ≤ bytes.length then
        (onLoadProcessPrograms rest).map (fun l => bytes.take 32 :: l)
      else none

/-! ### The fan-out service (`src/stream/src/main.rs`) -/

/-- The error side of the stream service's sqlx calls; `rowNotFound`
is what `fetch_one` returns when the query yields no row. -/
inductive SqlxError where
  | rowNotFound
deriving DecidableEq, Repr

/-- `proto::UserAssets`: jsonb columns travel as their text rendering,
`timestamp` as text. -/
structure UserAssets where
  address : String
  sol_balance : Rat
  token_holdings : String
  nft_holdings : String
  updated_at : String
deriving DecidableEq, Repr

/-- Postgres `jsonb::text` rendering of a holdings array (objects as
this pipeline writes them; base-58 strings need no escaping). -/
def jsonTokensText (ts : List TokenHolding) : String :=
  "[" ++ String.intercalate ", " (ts.map (fun t =>
    "\x7b\"mint\": \"" ++ t.mint ++ "\", \"amount\": " ++ natDecRepr t.amount ++ "\x7d"))
    ++ "]"

/-- Postgres `jsonb::text` rendering of an opaque string array. -/
def jsonStringsText (xs : List String) : String :=
  "[" ++ String.intercalate ", " (xs.map (fun s => "\"" ++ s ++ "\"")) ++ "]"

/-- `timestamp::text` (abstract text rendering of the model clock). -/
def timestampText (t : Nat) : String := natDecRepr t

/-- `ListingStreamService::fetch_user_assets` (lines 87–115): a
`fetch_one` on the user's table — an absent row is
`Err(sqlx::Error::RowNotFound)`, not an `Ok` with no payload. -/
def fetch_user_assets (st : DbState) (account : String) : Except SqlxError UserAssets :=
  match latestRow st (tableName account) with
  | none => Except.error SqlxError.rowNotFound
  | some row => Except.ok
      { address := account, sol_balance := row.sol_balance,
        token_holdings := jsonTokensText row.token_holdings,
        nft_holdings := jsonStringsText row.nft_holdings,
        updated_at := timestampText row.timestamp }

/-- `proto::Listing`: the wire message, 128-bit columns as decimal
text, `name` kept as its UTF-8 bytes. -/
structure ListingMsg where
  account : String
  name : List Nat
  seed : Nat
  mint : String
  funding_goal : Nat
  pool_mint_supply : String
  funding_raised : Nat
  available_tokens : String
  base_price : Nat
  tokens_sold : String
  bump : Nat
  vault_bump : Nat
  mint_bump : Nat
  updated_at : String
deriving DecidableEq, Repr

/-- `i16 as u32` (used for the bump columns on the way out). -/
def u32OfI16 (i : Int) : Nat := (i % 2 ^ 32).toNat

/-- `ListingStreamService::fetch_listing` (lines 117–159): a
`fetch_optional` keyed by account — an absent row is `Ok(None)`; the
`NUMERIC` 128-bit columns are read as `::text`. -/
def fetch_listing (st : DbState) (account : String) : Except SqlxError (Option ListingMsg) :=
  Except.ok ((st.listings.find? (fun e => e.1 = account)).map (fun e =>
    { account := e.1, name := e.2.name, seed := u64OfI64 e.2.seed, mint := e.2.mint,
      funding_goal := u64OfI64 e.2.funding_goal,
      pool_mint_supply := natDecRepr e.2.pool_mint_supply,
      funding_raised := u64OfI64 e.2.funding_raised,
      available_tokens := natDecRepr e.2.available_tokens,
      base_price := e.2.base_price,
      tokens_sold := natDecRepr e.2.tokens_sold,
      bump := u32OfI16 e.2.bump, vault_bump := u32OfI16 e.2.vault_bump,
      mint_bump := u32OfI16 e.2.mint_bump,
      updated_at := timestampText e.2.updated_at }))

/-- A parsed bus notification payload. -/
structure NotifyPayload where
  account : String
  action : String
deriving DecidableEq, Repr

/-- A wire message sent to subscribers. -/
inductive StreamUpdate where
  | listing (l : ListingMsg)
  | userAssets (u : UserAssets)
deriving DecidableEq, Repr

/-- One iteration of the dispatch loop in `start_listener` (lines
50–84): re-fetch by action kind and send the re-materialized message;
`Ok(None)`, a fetch error, and an unknown action are each only logged
and produce no outgoing message. -/
def handle_notification (st : DbState) (p : NotifyPayload) : List StreamUpdate :=
  if p.action = "account_update" then
    match fetch_listing st p.account with
    | Except.ok (some l) => [StreamUpdate.listing l]
    | Except.ok none => []
    | Except.error _ => []
  else if p.action = "user_update" then
    match fetch_user_assets st p.account with
    | Except.ok assets => [StreamUpdate.userAssets assets]
    | Except.error _ => []
  else []

/-! ## Shared proof infrastructure -/

set_option maxRecDepth 8000

instance {ε α : Type} [DecidableEq ε] [DecidableEq α] : DecidableEq (Except ε α)
  | Except.ok x, Except.ok y =>
    if h : x = y then isTrue (by rw [h])
    else isFalse (fun hh => h (by injection hh))
  | Except.ok _, Except.error _ => isFalse (fun hh => Except.noConfusion hh)
  | Except.error _, Except.ok _ => isFalse (fun hh => Except.noConfusion hh)
  | Except.error a, Except.error b =>
    if h : a = b then isTrue (by rw [h])
    else isFalse (fun hh => h (by injection hh))

/-- A database with no user rows, no listings, no notifications. -/
def emptyState : DbState := { users := fun _ => [], listings := [], notes := [] }

/-- The oracle on which every database round trip succeeds. -/
def allOkOracle : DbOracle :=
  { solWriteOk := true, solNotifyOk := true, tokenFetchOk := true,
    tokenWriteOk := true, tokenNotifyOk := true, listingWriteOk := true,
    listingNotifyOk := true }

theorem update_user_sol_balance_result (st : DbState) (o : DbOracle) (now : Nat)
    (u : String) (l : Nat) : (update_user_sol_balance st o now u l).2 = Except.ok () := rfl

theorem update_user_token_holding_result (st : DbState) (o : DbOracle) (now : Nat)
    (u m : String) (a : Nat) :
    (update_user_token_holding st o now u m a).2 = Except.ok () := by
  unfold update_user_token_holding
  dsimp only
  split
  · split <;> rfl
  · rfl

theorem userSolStep_result (st : DbState) (o : DbOracle) (now : Nat)
    (us : Option (List String)) (a : String) (l : Nat) :
    (userSolStep st o now us a l).2 = Except.ok () := by
  unfold userSolStep
  rcases us with _ | users
  · rfl
  · dsimp only
    split
    · exact update_user_sol_balance_result ..
    · rfl

theorem userTokenStep_result (st : DbState) (o : DbOracle) (now : Nat)
    (us : Option (List String)) (info : AccountInfo) :
    (userTokenStep st o now us info).2 = Except.ok () := by
  unfold userTokenStep
  rcases us with _ | users
  · rfl
  · dsimp only
    split
    · split
      · split
        · exact update_user_token_holding_result ..
        · rfl
      · rfl
    · rfl

theorem update_account_v3_result (st : DbState) (o : DbOracle) (now : Nat)
    (ps : List (List Nat)) (us : Option (List String)) (info : AccountInfo) :
    (update_account st o now ps us (ReplicaAccountInfo.v0_0_3 info)).2 = Except.ok () := by
  unfold update_account
  dsimp only
  split
  next st1 e heq =>
    have h1r := userSolStep_result st o now us (bs58encode info.pubkey) info.lamports
    rw [heq] at h1r
    exact absurd h1r (by simp)
  next st1 heq =>
    split
    next st2 e heq2 =>
      have h2r := userTokenStep_result st1 o now us info
      rw [heq2] at h2r
      exact absurd h2r (by simp)
    next st2 heq2 => rfl

/-! ## Claim theorems -/

/-- C8: an incoming mutation event whose schema version is not `V0_0_3`
(the single version `update_account` understands) is rejected whole
with the explicit unsupported-version `AccountsUpdateError`, leaving
the store untouched (the returned state is the input state, with no
notification published); and a `V0_0_3` event is never rejected with
that error kind. -/
theorem update_account_version_gate :
    (∀ st o now programs users,
      update_account st o now programs users ReplicaAccountInfo.v0_0_1 =
        (st, Except.error (PluginError.accountsUpdateError unsupportedVersionMsg)) ∧
      update_account st o now programs users ReplicaAccountInfo.v0_0_2 =
        (st, Except.error (PluginError.accountsUpdateError unsupportedVersionMsg))) ∧
    (∀ st o now programs users info msg,
      (update_account st o now programs users (ReplicaAccountInfo.v0_0_3 info)).2 ≠
        Except.error (PluginError.accountsUpdateError msg)) := by
  constructor
  · intro st o now programs users
    exact ⟨rfl, rfl⟩
  · intro st o now programs users info msg h
    rw [update_account_v3_result st o now programs users info] at h
    simp at h

/-- The oracle on which only the sol-balance INSERT fails. -/
def solWriteFailOracle : DbOracle := { allOkOracle with solWriteOk := false }

/-- C1 (code evaluated at the failing input): when the sol-balance
append of `update_user_sol_balance` fails, the user table stays empty,
yet the `user_update` notification for that subject is still published
on `user_updates` and the call reports success — the write result is
discarded (`let _ = ...`) and `pg_notify` runs unconditionally,
contradicting publish-only-after-successful-write. -/
theorem sol_balance_notifies_despite_failed_write :
    (update_user_sol_balance emptyState solWriteFailOracle 7
        "11111111111111111111111111111111" 5).1.users
        (tableName "11111111111111111111111111111111") = [] ∧
    (update_user_sol_balance emptyState solWriteFailOracle 7
        "11111111111111111111111111111111" 5).1.notes =
      [{ channel := "user_updates", account := "11111111111111111111111111111111",
         action := "user_update" }] ∧
    (update_user_sol_balance emptyState solWriteFailOracle 7
        "11111111111111111111111111111111" 5).2 = Except.ok () :=
  ⟨rfl, rfl, rfl⟩

/-- C10: `on_load`'s program-list parsing (lines 165–171) is not total:
`"0"` is not valid base-58 (`bs58::decode(..).unwrap()` panics) and
`"zz"` decodes to only 2 bytes (`&decoded[0..32]` panics) — both are
syntactically valid configuration entries on which `on_load` panics
(`none`) instead of returning a `ConfigError`; and the parsing returns
normally exactly when every configured entry decodes to at least 32
bytes of base-58. -/
theorem on_load_program_parsing_panics :
    onLoadProcessPrograms ["0"] = none ∧
    onLoadProcessPrograms ["zz"] = none ∧
    bs58decode "0" = none ∧
    bs58decode "zz" = some [13, 35] ∧
    (∀ accounts, (onLoadProcessPrograms accounts).isSome = true ↔
      ∀ a ∈ accounts, ∃ bytes, bs58decode a = some bytes ∧ 32 ≤ bytes.length) := by
  refine ⟨rfl, rfl, rfl, rfl, ?_⟩
  intro accounts
  induction accounts with
  | nil => simp [onLoadProcessPrograms]
  | cons a as ih =>
    simp only [onLoadProcessPrograms, List.forall_mem_cons]
    cases h : bs58decode a with
    | none => simp [h]
    | some bytes =>
      by_cases hl : 32 ≤ bytes.length
      · simp [h, hl, ih]
      · simp [h, hl]

theorem merge_filter_self (holdings : List TokenHolding) (mint : String) (amount : Nat) :
    (merge_token_holding holdings mint amount).filter (fun t => t.mint ≠ mint) =
      holdings.filter (fun t => t.mint ≠ mint) := by
  unfold merge_token_holding
  dsimp only
  by_cases ha : 0 < amount
  · simp only [ha, if_pos, List.filter_append, List.filter_filter]
    simp
  · simp only [ha, if_neg, List.filter_filter]
    simp

/-- C5: `merge_token_holding` removes every existing entry keyed by
`mint` and inserts `{mint, amount}` exactly when `amount > 0` (so
`amount = 0` deletes the holding); entries under other mints are kept
as they were; the operation is idempotent for a fixed `(mint, amount)`;
and the spec's three examples compute as stated, with no duplicate for
a replaced mint. -/
theorem merge_token_holding_algebra :
    (∀ holdings mint amount (t : TokenHolding),
        t ∈ merge_token_holding holdings mint amount → t.mint = mint →
        0 < amount ∧ t = { mint := mint, amount := amount }) ∧
    (∀ holdings mint amount,
        ({ mint := mint, amount := amount } : TokenHolding) ∈
          merge_token_holding holdings mint amount ↔ 0 < amount) ∧
    (∀ holdings mint amount (t : TokenHolding), t.mint ≠ mint →
        (t ∈ merge_token_holding holdings mint amount ↔ t ∈ holdings)) ∧
    (∀ holdings mint amount,
        merge_token_holding (merge_token_holding holdings mint amount) mint amount =
          merge_token_holding holdings mint amount) ∧
    merge_token_holding [{ mint := "m1", amount := 10 }] "m1" 0 = [] ∧
    merge_token_holding [] "m2" 5 = [{ mint := "m2", amount := 5 }] ∧
    merge_token_holding [{ mint := "m1", amount := 10 }, { mint := "m2", amount := 5 }]
        "m1" 20 = [{ mint := "m2", amount := 5 }, { mint := "m1", amount := 20 }] := by
  refine ⟨?_, ?_, ?_, ?_, by decide, by decide, by decide⟩
  · intro holdings mint amount t ht hmint
    unfold merge_token_holding at ht
    by_cases ha : 0 < amount
    · simp only [ha, if_pos, List.mem_append, List.mem_filter, List.mem_singleton] at ht
      rcases ht with ⟨_, hne⟩ | rfl
      · simp [hmint] at hne
      · exact ⟨ha, rfl⟩
    · simp only [ha, if_neg, List.mem_filter] at ht
      simp [hmint] at ht
  · intro holdings mint amount
    constructor
    · intro ht
      unfold merge_token_holding at ht
      by_cases ha : 0 < amount
      · exact ha
      · simp only [ha, if_neg, List.mem_filter] at ht
        simp at ht
    · intro ha
      unfold merge_token_holding
      simp [ha]
  · intro holdings mint amount t hne
    unfold merge_token_holding
    dsimp only
    by_cases ha : 0 < amount
    · rw [if_pos ha]
      simp only [List.mem_append, List.mem_filter, List.mem_singleton]
      constructor
      · rintro (⟨h, _⟩ | rfl)
        · exact h
        · simp at hne
      · intro h
        refine Or.inl ⟨h, ?_⟩
        simpa using hne
    · rw [if_neg ha]
      simp only [List.mem_filter]
      constructor
      · rintro ⟨h, _⟩
        exact h
      · intro h
        refine ⟨h, ?_⟩
        simpa using hne
  · intro holdings mint amount
    have key : merge_token_holding (merge_token_holding holdings mint amount) mint amount
        = if 0 < amount then
            ((merge_token_holding holdings mint amount).filter (fun t => t.mint ≠ mint))
              ++ [{ mint := mint, amount := amount }]
          else (merge_token_holding holdings mint amount).filter (fun t => t.mint ≠ mint) :=
      rfl
    rw [key, merge_filter_self]
    rfl

theorem latestRow_pushNote (s : DbState) (n : Notification) (tbl : String) :
    latestRow (pushNote s n) tbl = latestRow s tbl := rfl

theorem latestRow_appendRow (st : DbState) (tbl : String) (row : SnapshotRow) :
    latestRow (appendRow st tbl row) tbl = some row := by
  unfold latestRow appendRow
  simp

/-- C6 (amended): an appended snapshot carries forward the fields its
trigger did not modify from the latest prior snapshot of that user (or
from the empty default — zero balance, empty holdings — when none
exists) whenever the branch's reads succeed: a sol-balance append
copies `token_holdings`/`nft_holdings` from the prior row inside its
single INSERT, and a token-holding append whose preceding SELECT
succeeds copies `sol_balance` and bases the merge on the prior
holdings; but when that SELECT fails (the `Err` is caught by the
source's `_ =>` arm) while the INSERT itself succeeds, the appended
snapshot still copies `sol_balance` (the INSERT's own subquery) yet
resets the merge base and `nft_holdings` to the empty defaults even
when a prior snapshot exists. -/
theorem snapshot_carry_forward :
    (∀ st (o : DbOracle) now u lamports, o.solWriteOk = true →
      latestRow (update_user_sol_balance st o now u lamports).1 (tableName u) =
        some { timestamp := now,
               sol_balance := lamportsToSol lamports,
               token_holdings :=
                 ((latestRow st (tableName u)).map SnapshotRow.token_holdings).getD [],
               nft_holdings :=
                 ((latestRow st (tableName u)).map SnapshotRow.nft_holdings).getD [] }) ∧
    (∀ st (o : DbOracle) now u mint amount, o.tokenFetchOk = true →
      o.tokenWriteOk = true →
      latestRow (update_user_token_holding st o now u mint amount).1 (tableName u) =
        some { timestamp := now,
               sol_balance := ((latestRow st (tableName u)).map SnapshotRow.sol_balance).getD 0,
               token_holdings := merge_token_holding
                 (((latestRow st (tableName u)).map SnapshotRow.token_holdings).getD [])
                 mint amount,
               nft_holdings :=
                 ((latestRow st (tableName u)).map SnapshotRow.nft_holdings).getD [] }) ∧
    (∀ st (o : DbOracle) now u mint amount, o.tokenFetchOk = false →
      o.tokenWriteOk = true →
      latestRow (update_user_token_holding st o now u mint amount).1 (tableName u) =
        some { timestamp := now,
               sol_balance := ((latestRow st (tableName u)).map SnapshotRow.sol_balance).getD 0,
               token_holdings := merge_token_holding [] mint amount,
               nft_holdings := [] }) := by
  refine ⟨?_, ?_, ?_⟩
  · intro st o now u lamports hw
    unfold update_user_sol_balance
    simp only [hw, if_true]
    by_cases hn : o.solNotifyOk
    · simp only [hn, if_true]
      rw [latestRow_pushNote, latestRow_appendRow]
    · rw [if_neg hn, latestRow_appendRow]
  · intro st o now u mint amount hf hw
    unfold update_user_token_holding
    simp only [hf, if_true]
    cases hrow : latestRow st (tableName u) with
    | none =>
      simp only [hrow, hw, if_true]
      by_cases hn : o.tokenNotifyOk
      · simp only [hn, if_true]
        rw [latestRow_pushNote, latestRow_appendRow]
        simp [hrow]
      · rw [if_neg hn, latestRow_appendRow]
        simp [hrow]
    | some row =>
      simp only [hrow, if_true, hw]
      by_cases hn : o.tokenNotifyOk
      · simp only [hn, if_true]
        rw [latestRow_pushNote, latestRow_appendRow]
        simp [hrow]
      · rw [if_neg hn, latestRow_appendRow]
        simp [hrow]
  · intro st o now u mint amount hf hw
    unfold update_user_token_holding
    simp only [hf, Bool.false_eq_true, if_false, hw, if_true]
    by_cases hn : o.tokenNotifyOk
    · simp only [hn, if_true]
      rw [latestRow_pushNote, latestRow_appendRow]
    · rw [if_neg hn, latestRow_appendRow]

/-- The user table of the spec's carry-forward example: one prior
snapshot `{sol_balance: 1.0, token_holdings: [{m1, 10}], nft: []}`. -/
def priorExampleState : DbState :=
  { users := fun n =>
      if n = tableName "u" then
        [{ timestamp := 0, sol_balance := 1,
           token_holdings := [{ mint := "m1", amount := 10 }], nft_holdings := [] }]
      else [],
    listings := [], notes := [] }

theorem snapshot_carry_forward_witness :
    allOkOracle.solWriteOk = true ∧
    latestRow (update_user_sol_balance priorExampleState allOkOracle 1 "u" 2000000000).1
        (tableName "u") =
      some { timestamp := 1, sol_balance := 2,
             token_holdings := [{ mint := "m1", amount := 10 }], nft_holdings := [] } := by
  refine ⟨rfl, ?_⟩
  have h := snapshot_carry_forward.1 priorExampleState allOkOracle 1 "u" 2000000000 rfl
  rw [h]
  have hs : lamportsToSol 2000000000 = 2 := by
    unfold lamportsToSol
    norm_num
  rw [hs]
  rfl

/-- A user table with one prior snapshot holding both a token holding
and an NFT entry. -/
def priorHoldingsState : DbState :=
  { users := fun n =>
      if n = tableName "u" then
        [{ timestamp := 0, sol_balance := 1,
           token_holdings := [{ mint := "m1", amount := 10 }], nft_holdings := ["n1"] }]
      else [],
    listings := [], notes := [] }

/-- The oracle on which the token branch's pre-INSERT SELECT fails
while every other call, the INSERT included, succeeds. -/
def tokenFetchFailOracle : DbOracle := { allOkOracle with tokenFetchOk := false }

/-- C6 counterexample: with a prior snapshot `{1, [{m1, 10}], ["n1"]}`
present, a token-holding update whose pre-INSERT SELECT fails but
whose INSERT succeeds appends `{1, [{m2, 5}], []}`: `sol_balance` is
carried forward by the INSERT's own subquery, but the untouched
`nft_holdings` and the merge's base holdings are reset to the empty
defaults although a prior snapshot exists — refuting the unconditional
carry-forward. -/
theorem token_fetch_failure_resets_holdings :
    latestRow priorHoldingsState (tableName "u") =
      some { timestamp := 0, sol_balance := 1,
             token_holdings := [{ mint := "m1", amount := 10 }], nft_holdings := ["n1"] } ∧
    latestRow (update_user_token_holding priorHoldingsState tokenFetchFailOracle 1 "u"
        "m2" 5).1 (tableName "u") =
      some { timestamp := 1, sol_balance := 1,
             token_holdings := [{ mint := "m2", amount := 5 }], nft_holdings := [] } ∧
    (update_user_token_holding priorHoldingsState tokenFetchFailOracle 1 "u" "m2" 5).2 =
      Except.ok () :=
  ⟨rfl, rfl, rfl⟩

theorem update_listing_listings (st : DbState) (o : DbOracle) (now : Nat)
    (acct : String) (al : AnchorListing) :
    (update_listing st o now acct al).listings =
      if o.listingWriteOk then
        upsertAssoc st.listings acct (listingRowOf now (listingOfAnchor al))
      else st.listings := by
  unfold update_listing
  dsimp only
  split
  · split <;> rfl
  · rfl

theorem keys_map_replace (acct : String) (row : ListingRow) :
    ∀ tbl : List (String × ListingRow),
      (tbl.map (fun e => if e.1 = acct then (acct, row) else e)).map Prod.fst =
        tbl.map Prod.fst
  | [] => rfl
  | e :: t => by
    by_cases he : e.1 = acct
    · simp [he, keys_map_replace acct row t]
    · simp [he, keys_map_replace acct row t]

theorem upsertAssoc_keys (tbl : List (String × ListingRow)) (acct : String) (row : ListingRow) :
    (upsertAssoc tbl acct row).map Prod.fst =
      if tbl.any (fun e => e.1 = acct) then tbl.map Prod.fst
      else tbl.map Prod.fst ++ [acct] := by
  unfold upsertAssoc
  split
  · exact keys_map_replace acct row tbl
  · simp

theorem find?_map_replace (acct : String) (row : ListingRow) :
    ∀ tbl : List (String × ListingRow), tbl.any (fun e => e.1 = acct) = true →
      (tbl.map (fun e => if e.1 = acct then (acct, row) else e)).find?
        (fun e => e.1 = acct) = some (acct, row)
  | [], h => by simp at h
  | e :: t, h => by
    by_cases he : e.1 = acct
    · simp [he, List.find?_cons]
    · have ht : t.any (fun e => e.1 = acct) = true := by
        simp only [List.any_cons] at h
        simpa [he] using h
      simp only [List.map_cons, List.find?_cons, if_neg he]
      rw [decide_eq_false he]
      exact find?_map_replace acct row t ht

theorem find?_append_new (acct : String) (row : ListingRow) :
    ∀ tbl : List (String × ListingRow), tbl.any (fun e => e.1 = acct) = false →
      (tbl ++ [(acct, row)]).find? (fun e => e.1 = acct) = some (acct, row)
  | [], _ => by simp
  | e :: t, h => by
    simp only [List.any_cons, Bool.or_eq_false_iff] at h
    have he : ¬(e.1 = acct) := by simpa using h.1
    simp only [List.cons_append, List.find?_cons]
    rw [decide_eq_false he]
    exact find?_append_new acct row t (by simpa using h.2)

theorem upsertAssoc_find? (tbl : List (String × ListingRow)) (acct : String) (row : ListingRow) :
    (upsertAssoc tbl acct row).find? (fun e => e.1 = acct) = some (acct, row) := by
  unfold upsertAssoc
  split
  next h => exact find?_map_replace acct row tbl h
  next h =>
    have h2 : tbl.any (fun e => e.1 = acct) = false := Bool.eq_false_iff.mpr h
    exact find?_append_new acct row tbl h2

theorem countP_keys (acct : String) :
    ∀ tbl : List (String × ListingRow),
      tbl.countP (fun e => e.1 = acct) = (tbl.map Prod.fst).count acct
  | [] => rfl
  | e :: t => by
    by_cases he : e.1 = acct
    · simp [List.countP_cons, List.count_cons, he, countP_keys acct t]
    · simp [List.countP_cons, List.count_cons, he, countP_keys acct t]

theorem update_listing_keys_nodup (st : DbState) (o : DbOracle) (now : Nat)
    (acct : String) (al : AnchorListing) (hnd : (st.listings.map Prod.fst).Nodup) :
    ((update_listing st o now acct al).listings.map Prod.fst).Nodup := by
  rw [update_listing_listings]
  split
  · rw [upsertAssoc_keys]
    split
    · exact hnd
    next h =>
      have hnotin : acct ∉ st.listings.map Prod.fst := by
        intro hin
        rcases List.mem_map.mp hin with ⟨e, he, hfst⟩
        exact h (List.any_eq_true.mpr ⟨e, he, by simp [hfst]⟩)
      rw [← List.concat_eq_append]
      exact List.Nodup.concat hnotin hnd
  · exact hnd

theorem update_listing_find (st : DbState) (o : DbOracle) (now : Nat)
    (acct : String) (al : AnchorListing) (hw : o.listingWriteOk = true) :
    (update_listing st o now acct al).listings.find? (fun e => e.1 = acct) =
      some (acct, listingRowOf now (listingOfAnchor al)) := by
  rw [update_listing_listings, if_pos hw]
  exact upsertAssoc_find? st.listings acct (listingRowOf now (listingOfAnchor al))

/-- C7: the listings upsert is an idempotent insert-or-replace keyed by
account: key uniqueness is preserved (at most one row per account after
any number of upserts), a successful write leaves exactly one row for
the account holding exactly the bound record with `updated_at` set to
this statement's `CURRENT_TIMESTAMP`; upserting the same record twice
leaves every non-timestamp column unchanged after the second call and,
with a non-decreasing clock, the row's `updated_at` never decreases. -/
theorem upsert_listing_idempotent :
    (∀ st (o : DbOracle) now acct al, (st.listings.map Prod.fst).Nodup →
      ((update_listing st o now acct al).listings.map Prod.fst).Nodup) ∧
    (∀ st (o : DbOracle) now acct al, (st.listings.map Prod.fst).Nodup →
      o.listingWriteOk = true →
      (update_listing st o now acct al).listings.countP (fun e => e.1 = acct) = 1) ∧
    (∀ st (o : DbOracle) now acct al, o.listingWriteOk = true →
      (update_listing st o now acct al).listings.find? (fun e => e.1 = acct) =
        some (acct, listingRowOf now (listingOfAnchor al))) ∧
    (∀ st (o : DbOracle) now1 now2 acct al, o.listingWriteOk = true → now1 ≤ now2 →
      ∃ r1 r2,
        (update_listing st o now1 acct al).listings.find? (fun e => e.1 = acct) =
          some (acct, r1) ∧
        (update_listing (update_listing st o now1 acct al) o now2 acct al).listings.find?
          (fun e => e.1 = acct) = some (acct, r2) ∧
        { r2 with updated_at := r1.updated_at } = r1 ∧ r1.updated_at ≤ r2.updated_at) := by
  refine ⟨update_listing_keys_nodup, ?_, update_listing_find, ?_⟩
  · intro st o now acct al hnd hw
    have hfind := update_listing_find st o now acct al hw
    have hmem : acct ∈ (update_listing st o now acct al).listings.map Prod.fst :=
      List.mem_map.mpr ⟨_, List.mem_of_find?_eq_some hfind, rfl⟩
    rw [countP_keys]
    exact List.count_eq_one_of_mem (update_listing_keys_nodup st o now acct al hnd) hmem
  · intro st o now1 now2 acct al hw hle
    refine ⟨listingRowOf now1 (listingOfAnchor al), listingRowOf now2 (listingOfAnchor al),
      update_listing_find st o now1 acct al hw,
      update_listing_find _ o now2 acct al hw, rfl, hle⟩

theorem digitsVal_natDigitsAux (b : Nat) (hb : 2 ≤ b) :
    ∀ fuel n, n ≤ fuel → digitsVal b (natDigitsAux b fuel n) = n
  | 0, n, h => by
    have hn : n = 0 := Nat.le_zero.mp h
    subst hn
    rfl
  | fuel + 1, n, h => by
    by_cases hn : n = 0
    · subst hn
      simp [natDigitsAux, digitsVal]
    · have hlt : n / b < n := Nat.div_lt_self (Nat.pos_of_ne_zero hn) (by omega)
      have hrec : n / b ≤ fuel := by omega
      simp only [natDigitsAux, if_neg hn]
      have ih := digitsVal_natDigitsAux b hb fuel (n / b) hrec
      simp only [digitsVal, List.foldr_cons] at *
      rw [ih]
      exact Nat.mod_add_div n b

theorem natDigitsAux_lt (b : Nat) (hb : 0 < b) :
    ∀ fuel n d, d ∈ natDigitsAux b fuel n → d < b
  | 0, n, d, h => by simp [natDigitsAux] at h
  | fuel + 1, n, d, h => by
    by_cases hn : n = 0
    · subst hn
      simp [natDigitsAux] at h
    · simp only [natDigitsAux, if_neg hn, List.mem_cons] at h
      rcases h with rfl | h
      · exact Nat.mod_lt _ hb
      · exact natDigitsAux_lt b hb fuel (n / b) d h

theorem collectSome_decDigit (ds : List Nat) (h : ∀ d ∈ ds, d < 10) :
    collectSome (ds.map (fun d => Char.ofNat (48 + d))) decDigitOf = some ds := by
  induction ds with
  | nil => rfl
  | cons d t ih =>
    have hd : d < 10 := h d (by simp)
    have hchar : decDigitOf (Char.ofNat (48 + d)) = some d := by
      have hall : ∀ d, d < 10 → decDigitOf (Char.ofNat (48 + d)) = some d := by decide
      exact hall d hd
    simp only [List.map_cons, collectSome, hchar]
    rw [ih (fun x hx => h x (by simp [hx]))]
    rfl

theorem decParseNat_natDecRepr (n : Nat) : decParseNat (natDecRepr n) = some n := by
  by_cases hn : n = 0
  · subst hn
    rfl
  · have hchars :
        (natDecRepr n).toList = (natDecDigits n).reverse.map (fun d => Char.ofNat (48 + d)) := by
      unfold natDecRepr
      rw [if_neg hn]
      rfl
    have hlt : ∀ d ∈ (natDecDigits n).reverse, d < 10 := by
      intro d hd
      exact natDigitsAux_lt 10 (by omega) (n + 1) n d (List.mem_reverse.mp hd)
    have hne : natDecDigits n ≠ [] := by
      unfold natDecDigits natDigitsAux
      simp [hn]
    unfold decParseNat
    rw [hchars, collectSome_decDigit _ hlt]
    have hrne : (natDecDigits n).reverse ≠ [] := by
      simpa using hne
    dsimp only
    rw [if_neg hrne, List.reverse_reverse]
    exact congrArg some (digitsVal_natDigitsAux 10 (by omega) (n + 1) n (Nat.le_succ n))

theorem numericOfText_natDecRepr (n : Nat) : numericOfText (natDecRepr n) = n := by
  unfold numericOfText
  rw [decParseNat_natDecRepr]
  rfl

/-- C9: every 128-bit quantity round-trips exactly through its decimal
text: `to_string` followed by an exact decimal read is the identity on
`Nat` (in particular on every `u128`, including the maximum), and a
listing written by `update_listing` is fetched back by `fetch_listing`
with `pool_mint_supply`, `available_tokens` and `tokens_sold` equal to
the exact decimal rendering of the original values, which parse back
to the identical numbers — no float coercion anywhere on the path. -/
theorem u128_text_round_trip :
    (∀ n : Nat, decParseNat (natDecRepr n) = some n) ∧
    (∀ st (o : DbOracle) now acct al, o.listingWriteOk = true →
      ∃ msg, fetch_listing (update_listing st o now acct al) acct = Except.ok (some msg) ∧
        msg.pool_mint_supply = natDecRepr al.pool_mint_supply ∧
        decParseNat msg.pool_mint_supply = some al.pool_mint_supply ∧
        msg.available_tokens = natDecRepr al.available_tokens ∧
        decParseNat msg.available_tokens = some al.available_tokens ∧
        msg.tokens_sold = natDecRepr al.tokens_sold ∧
        decParseNat msg.tokens_sold = some al.tokens_sold) := by
  constructor
  · exact decParseNat_natDecRepr
  · intro st o now acct al hw
    have hfind := update_listing_find st o now acct al hw
    unfold fetch_listing
    rw [hfind]
    refine ⟨_, rfl, ?_, ?_, ?_, ?_, ?_, ?_⟩ <;>
      simp [listingRowOf, listingOfAnchor, numericOfText_natDecRepr, decParseNat_natDecRepr]

/-- An `AnchorListing` whose three 128-bit quantities all hold the
maximum `u128` value. -/
def maxU128Listing : AnchorListing :=
  { name := [], seed := 0, mint := List.replicate 32 0, funding_goal := 0,
    pool_mint_supply := 340282366920938463463374607431768211455,
    funding_raised := 0,
    available_tokens := 340282366920938463463374607431768211455,
    base_price := 0,
    tokens_sold := 340282366920938463463374607431768211455,
    bump := 0, vault_bump := 0, mint_bump := 0 }

theorem u128_text_round_trip_witness :
    decParseNat (natDecRepr 340282366920938463463374607431768211455) =
      some 340282366920938463463374607431768211455 ∧
    ∃ msg, fetch_listing (update_listing emptyState allOkOracle 0 "acct" maxU128Listing)
        "acct" = Except.ok (some msg) ∧
      msg.pool_mint_supply = natDecRepr maxU128Listing.pool_mint_supply ∧
      decParseNat msg.pool_mint_supply = some maxU128Listing.pool_mint_supply ∧
      msg.available_tokens = natDecRepr maxU128Listing.available_tokens ∧
      decParseNat msg.available_tokens = some maxU128Listing.available_tokens ∧
      msg.tokens_sold = natDecRepr maxU128Listing.tokens_sold ∧
      decParseNat msg.tokens_sold = some maxU128Listing.tokens_sold :=
  ⟨u128_text_round_trip.1 340282366920938463463374607431768211455,
   u128_text_round_trip.2 emptyState allOkOracle 0 "acct" maxU128Listing rfl⟩

theorem take_append_le : ∀ (n : Nat) (b e : List Nat), n ≤ b.length →
    (b ++ e).take n = b.take n
  | 0, _, _, _ => by simp
  | n + 1, [], _, h => by simp at h
  | n + 1, x :: b, e, h => by
    simp only [List.cons_append, List.take_succ_cons]
    rw [take_append_le n b e (by simpa using h)]

theorem drop_append_le : ∀ (n : Nat) (b e : List Nat), n ≤ b.length →
    (b ++ e).drop n = b.drop n ++ e
  | 0, _, _, _ => by simp
  | n + 1, [], _, h => by simp at h
  | n + 1, x :: b, e, h => by
    simp only [List.cons_append, List.drop_succ_cons]
    exact drop_append_le n b e (by simpa using h)

theorem readBytes_some (n : Nat) (b x r : List Nat) (h : readBytes n b = some (x, r)) :
    n ≤ b.length ∧ x = b.take n ∧ r = b.drop n ∧ x.length = n ∧ b.length = n + r.length := by
  unfold readBytes at h
  split at h
  next hle =>
    injection h with h'
    injection h' with hx hr
    refine ⟨hle, hx.symm, hr.symm, ?_, ?_⟩
    · rw [← hx]
      exact List.length_take_of_le hle
    · rw [← hr]
      simp
      omega
  next => exact absurd h (by simp)

theorem readBytes_append (n : Nat) (b e x r : List Nat) (h : readBytes n b = some (x, r)) :
    readBytes n (b ++ e) = some (x, r ++ e) := by
  obtain ⟨hle, hx, hr, _, _⟩ := readBytes_some n b x r h
  unfold readBytes
  rw [if_pos (by simp; omega)]
  rw [take_append_le n b e hle, drop_append_le n b e hle, ← hx, ← hr]

theorem readUIntLe_some (k : Nat) (b : List Nat) (v : Nat) (r : List Nat)
    (h : readUIntLe k b = some (v, r)) :
    ∃ x, readBytes k b = some (x, r) ∧ v = digitsVal 256 x ∧ b.length = k + r.length := by
  unfold readUIntLe at h
  cases hb : readBytes k b with
  | none => rw [hb] at h; exact absurd h (by simp)
  | some p =>
    obtain ⟨x, r0⟩ := p
    rw [hb] at h
    simp only [Option.map_some', Option.some.injEq, Prod.mk.injEq] at h
    obtain ⟨hv, hr⟩ := h
    subst hr
    exact ⟨x, rfl, hv.symm, (readBytes_some k b x r0 hb).2.2.2.2⟩

theorem readUIntLe_append (k : Nat) (b e : List Nat) (v : Nat) (r : List Nat)
    (h : readUIntLe k b = some (v, r)) :
    readUIntLe k (b ++ e) = some (v, r ++ e) := by
  obtain ⟨x, hb, hv, _⟩ := readUIntLe_some k b v r h
  unfold readUIntLe
  rw [readBytes_append k b e x r hb]
  rw [hv]
  rfl

theorem readBorshString_some (b name r : List Nat) (h : readBorshString b = some (name, r)) :
    ∃ len b1, readUIntLe 4 b = some (len, b1) ∧ readBytes len b1 = some (name, r) ∧
      isValidUtf8 name = true ∧ b.length = 4 + name.length + r.length := by
  unfold readBorshString at h
  cases h4 : readUIntLe 4 b with
  | none => rw [h4] at h; exact absurd h (by simp)
  | some p =>
    obtain ⟨len, b1⟩ := p
    rw [h4] at h
    dsimp only at h
    cases hn : readBytes len b1 with
    | none => rw [hn] at h; exact absurd h (by simp)
    | some q =>
      obtain ⟨bytes, b2⟩ := q
      rw [hn] at h
      dsimp only at h
      split at h
      next hu =>
        simp only [Option.some.injEq, Prod.mk.injEq] at h
        obtain ⟨hname, hr⟩ := h
        refine ⟨len, b1, rfl, ?_, ?_, ?_⟩
        · rw [← hname, ← hr]
          exact hn
        · rw [← hname]
          exact hu
        · obtain ⟨x4, _, _, hlen4⟩ := readUIntLe_some 4 b len b1 h4
          obtain ⟨_, _, _, hbl, hb1⟩ := readBytes_some len b1 bytes b2 hn
          have e1 : name.length = bytes.length := by rw [← hname]
          have e2 : r.length = b2.length := by rw [← hr]
          omega
      next => exact absurd h (by simp)

theorem readBorshString_append (b e name r : List Nat)
    (h : readBorshString b = some (name, r)) :
    readBorshString (b ++ e) = some (name, r ++ e) := by
  obtain ⟨len, b1, h4, hn, hu, _⟩ := readBorshString_some b name r h
  unfold readBorshString
  rw [readUIntLe_append 4 b e len b1 h4]
  dsimp only
  rw [readBytes_append len b1 e name r hn]
  dsimp only
  rw [if_pos hu]

theorem readF64_some (b : List Nat) (v : Nat) (r : List Nat)
    (h : readF64 b = some (v, r)) :
    readUIntLe 8 b = some (v, r) ∧ isNanF64Bits v = false ∧ b.length = 8 + r.length := by
  unfold readF64 at h
  cases h8 : readUIntLe 8 b with
  | none => rw [h8] at h; exact absurd h (by simp)
  | some p =>
    obtain ⟨bits, r0⟩ := p
    rw [h8] at h
    dsimp only at h
    split at h
    · exact absurd h (by simp)
    next hnan =>
      simp only [Option.some.injEq, Prod.mk.injEq] at h
      obtain ⟨hv, hr⟩ := h
      subst hv
      subst hr
      obtain ⟨x, _, _, hlen⟩ := readUIntLe_some 8 b bits r0 h8
      exact ⟨rfl, Bool.eq_false_iff.mpr hnan, hlen⟩

theorem readF64_append (b e : List Nat) (v : Nat) (r : List Nat)
    (h : readF64 b = some (v, r)) :
    readF64 (b ++ e) = some (v, r ++ e) := by
  obtain ⟨h8, hnan, _⟩ := readF64_some b v r h
  unfold readF64
  rw [readUIntLe_append 8 b e v r h8]
  dsimp only
  rw [if_neg (by simp [hnan])]

theorem deserializeAnchorListing_some (b : List Nat) (al : AnchorListing)
    (rest : List Nat) (h : deserializeAnchorListing b = some (al, rest)) :
    (∀ extra, deserializeAnchorListing (b ++ extra) = some (al, rest ++ extra)) ∧
    b.length = 119 + al.name.length + rest.length := by
  unfold deserializeAnchorListing at h
  cases h0 : readBorshString b with
  | none => rw [h0] at h; exact absurd h (by simp)
  | some p0 =>
    obtain ⟨name, b1⟩ := p0
    rw [h0] at h
    dsimp only at h
    cases h1 : readUIntLe 8 b1 with
    | none => rw [h1] at h; exact absurd h (by simp)
    | some p1 =>
      obtain ⟨seed, b2⟩ := p1
      rw [h1] at h
      dsimp only at h
      cases h2 : readBytes 32 b2 with
      | none => rw [h2] at h; exact absurd h (by simp)
      | some p2 =>
        obtain ⟨mint, b3⟩ := p2
        rw [h2] at h
        dsimp only at h
        cases h3 : readUIntLe 8 b3 with
        | none => rw [h3] at h; exact absurd h (by simp)
        | some p3 =>
          obtain ⟨funding_goal, b4⟩ := p3
          rw [h3] at h
          dsimp only at h
          cases h4 : readUIntLe 16 b4 with
          | none => rw [h4] at h; exact absurd h (by simp)
          | some p4 =>
            obtain ⟨pool_mint_supply, b5⟩ := p4
            rw [h4] at h
            dsimp only at h
            cases h5 : readUIntLe 8 b5 with
            | none => rw [h5] at h; exact absurd h (by simp)
            | some p5 =>
              obtain ⟨funding_raised, b6⟩ := p5
              rw [h5] at h
              dsimp only at h
              cases h6 : readUIntLe 16 b6 with
              | none => rw [h6] at h; exact absurd h (by simp)
              | some p6 =>
                obtain ⟨available_tokens, b7⟩ := p6
                rw [h6] at h
                dsimp only at h
                cases h7 : readF64 b7 with
                | none => rw [h7] at h; exact absurd h (by simp)
                | some p7 =>
                  obtain ⟨base_price, b8⟩ := p7
                  rw [h7] at h
                  dsimp only at h
                  cases h8 : readUIntLe 16 b8 with
                  | none => rw [h8] at h; exact absurd h (by simp)
                  | some p8 =>
                    obtain ⟨tokens_sold, b9⟩ := p8
                    rw [h8] at h
                    dsimp only at h
                    cases h9 : readUIntLe 1 b9 with
                    | none => rw [h9] at h; exact absurd h (by simp)
                    | some p9 =>
                      obtain ⟨bump, b10⟩ := p9
                      rw [h9] at h
                      dsimp only at h
                      cases h10 : readUIntLe 1 b10 with
                      | none => rw [h10] at h; exact absurd h (by simp)
                      | some p10 =>
                        obtain ⟨vault_bump, b11⟩ := p10
                        rw [h10] at h
                        dsimp only at h
                        cases h11 : readUIntLe 1 b11 with
                        | none => rw [h11] at h; exact absurd h (by simp)
                        | some p11 =>
                          obtain ⟨mint_bump, b12⟩ := p11
                          rw [h11] at h
                          dsimp only at h
                          simp only [Option.some.injEq, Prod.mk.injEq] at h
                          obtain ⟨hal, hrest⟩ := h
                          constructor
                          · intro extra
                            unfold deserializeAnchorListing
                            rw [readBorshString_append b extra name b1 h0]
                            dsimp only
                            rw [readUIntLe_append 8 b1 extra seed b2 h1]
                            dsimp only
                            rw [readBytes_append 32 b2 extra mint b3 h2]
                            dsimp only
                            rw [readUIntLe_append 8 b3 extra funding_goal b4 h3]
                            dsimp only
                            rw [readUIntLe_append 16 b4 extra pool_mint_supply b5 h4]
                            dsimp only
                            rw [readUIntLe_append 8 b5 extra funding_raised b6 h5]
                            dsimp only
                            rw [readUIntLe_append 16 b6 extra available_tokens b7 h6]
                            dsimp only
                            rw [readF64_append b7 extra base_price b8 h7]
                            dsimp only
                            rw [readUIntLe_append 16 b8 extra tokens_sold b9 h8]
                            dsimp only
                            rw [readUIntLe_append 1 b9 extra bump b10 h9]
                            dsimp only
                            rw [readUIntLe_append 1 b10 extra vault_bump b11 h10]
                            dsimp only
                            rw [readUIntLe_append 1 b11 extra mint_bump b12 h11]
                            dsimp only
                            rw [hal, hrest]
                          · obtain ⟨len0, b1x, hx0a, hx0b, hx0c, hL0⟩ := readBorshString_some b name b1 h0
                            obtain ⟨x1, hxa1, hxb1, hL1⟩ := readUIntLe_some 8 b1 seed b2 h1
                            have hL2 := (readBytes_some 32 b2 mint b3 h2).2.2.2.2
                            obtain ⟨x3, hxa3, hxb3, hL3⟩ := readUIntLe_some 8 b3 funding_goal b4 h3
                            obtain ⟨x4, hxa4, hxb4, hL4⟩ := readUIntLe_some 16 b4 pool_mint_supply b5 h4
                            obtain ⟨x5, hxa5, hxb5, hL5⟩ := readUIntLe_some 8 b5 funding_raised b6 h5
                            obtain ⟨x6, hxa6, hxb6, hL6⟩ := readUIntLe_some 16 b6 available_tokens b7 h6
                            have hL7 := (readF64_some b7 base_price b8 h7).2.2
                            obtain ⟨x8, hxa8, hxb8, hL8⟩ := readUIntLe_some 16 b8 tokens_sold b9 h8
                            obtain ⟨x9, hxa9, hxb9, hL9⟩ := readUIntLe_some 1 b9 bump b10 h9
                            obtain ⟨x10, hxa10, hxb10, hL10⟩ := readUIntLe_some 1 b10 vault_bump b11 h10
                            obtain ⟨x11, hxa11, hxb11, hL11⟩ := readUIntLe_some 1 b11 mint_bump b12 h11
                            have hnm : al.name = name := by rw [← hal]
                            have hrl : rest.length = b12.length := by rw [← hrest]
                            rw [hnm, hrl]
                            omega

/-- C4 counterexample: the all-zero 128-byte payload (8 discriminator
bytes, a 119-byte listing encoding, and 1 trailing byte) decodes
successfully — `AnchorListing::deserialize` leaves the trailing byte
unread instead of failing — refuting "fails … exactly when the
remainder has … trailing bytes left over after the last declared
field". -/
theorem decode_listing_trailing_byte_accepted :
    decode_listing (List.replicate 128 0) =
      some { name := [], seed := 0, mint := List.replicate 32 0, funding_goal := 0,
             pool_mint_supply := 0, funding_raised := 0, available_tokens := 0,
             base_price := 0, tokens_sold := 0, bump := 0, vault_bump := 0,
             mint_bump := 0 } ∧
    deserializeAnchorListing ((List.replicate 128 0).drop 8) =
      some ({ name := [], seed := 0, mint := List.replicate 32 0, funding_goal := 0,
              pool_mint_supply := 0, funding_raised := 0, available_tokens := 0,
              base_price := 0, tokens_sold := 0, bump := 0, vault_bump := 0,
              mint_bump := 0 }, [0]) := by
  constructor <;> decide

/-- C4 (amended): the listing decode is attempted only for payloads
strictly longer than 8 bytes (the first 8 are skipped as the
discriminator) and, as a total function, never faults; it fails
exactly when borsh fails on the remainder — on a short read, on
invalid UTF-8 in the name, or on a NaN `base_price` bit pattern
(borsh refuses NaN floats) — while trailing bytes after the last
declared field are ignored (decoding a prefix-extended input succeeds
with the extra bytes left over); any payload whose remainder is
shorter than the 119-byte minimum encoding fails. -/
theorem decode_listing_characterization :
    (∀ payload : List Nat, payload.length ≤ 8 → decode_listing payload = none) ∧
    (∀ payload : List Nat, decode_listing payload = none ↔
      payload.length ≤ 8 ∨ deserializeAnchorListing (payload.drop 8) = none) ∧
    (∀ b al rest, deserializeAnchorListing b = some (al, rest) →
      ∀ extra, deserializeAnchorListing (b ++ extra) = some (al, rest ++ extra)) ∧
    (∀ b al rest, deserializeAnchorListing b = some (al, rest) →
      b.length = 119 + al.name.length + rest.length) ∧
    (∀ b : List Nat, b.length < 119 → deserializeAnchorListing b = none) ∧
    deserializeAnchorListing (1 :: 0 :: 0 :: 0 :: 255 :: List.replicate 115 0) = none ∧
    deserializeAnchorListing
      (List.replicate 92 0 ++ [0, 0, 0, 0, 0, 0, 248, 127] ++ List.replicate 19 0) =
      none := by
  have hlen : ∀ b al rest, deserializeAnchorListing b = some (al, rest) →
      b.length = 119 + al.name.length + rest.length := fun b al rest h =>
    (deserializeAnchorListing_some b al rest h).2
  refine ⟨?_, ?_, ?_, hlen, ?_, by decide, by decide⟩
  · intro payload h
    unfold decode_listing
    rw [if_neg (by omega)]
  · intro payload
    unfold decode_listing
    by_cases hl : payload.length > 8
    · rw [if_pos hl]
      simp only [Option.map_eq_none']
      constructor
      · intro h
        exact Or.inr h
      · intro h
        rcases h with h | h
        · omega
        · exact h
    · rw [if_neg hl]
      exact iff_of_true rfl (Or.inl (by omega))
  · intro b al rest h extra
    exact (deserializeAnchorListing_some b al rest h).1 extra
  · intro b hb
    cases hd : deserializeAnchorListing b with
    | none => rfl
    | some p =>
      obtain ⟨al, rest⟩ := p
      have := hlen b al rest hd
      omega

theorem decode_listing_characterization_witness :
    deserializeAnchorListing (List.replicate 119 0 ++ [7]) =
      some ({ name := [], seed := 0, mint := List.replicate 32 0, funding_goal := 0,
              pool_mint_supply := 0, funding_raised := 0, available_tokens := 0,
              base_price := 0, tokens_sold := 0, bump := 0, vault_bump := 0,
              mint_bump := 0 }, ([] : List Nat) ++ [7]) :=
  decode_listing_characterization.2.2.1 (List.replicate 119 0)
    { name := [], seed := 0, mint := List.replicate 32 0, funding_goal := 0,
      pool_mint_supply := 0, funding_raised := 0, available_tokens := 0,
      base_price := 0, tokens_sold := 0, bump := 0, vault_bump := 0, mint_bump := 0 }
    [] (by decide) [7]

/-- C3 counterexample: with no stored row for the account,
`fetch_user_assets` (a `fetch_one`) fails with
`sqlx::Error::RowNotFound` — an error result, not a `NotFound`/`None`
value — while `fetch_listing` (a `fetch_optional`) returns `Ok(None)`;
the claim that each returns a non-failing `NotFound`/`None` result is
false for `fetch_user_assets`. -/
theorem fetch_user_assets_absence_is_error :
    fetch_user_assets emptyState "11111111111111111111111111111111" =
      Except.error SqlxError.rowNotFound ∧
    fetch_listing emptyState "11111111111111111111111111111111" = Except.ok none :=
  ⟨rfl, rfl⟩

/-- C3 (amended): both fetches are read-only and the dispatcher never
propagates absence: `fetch_listing` returns `Ok(None)` when no row
matches the account, whereas `fetch_user_assets` returns
`Err(RowNotFound)` when the user has no snapshot row; in either case
the dispatch step logs and emits nothing to subscribers. -/
theorem fetch_absence_handling :
    (∀ st account, st.listings.find? (fun e => e.1 = account) = none →
      fetch_listing st account = Except.ok none) ∧
    (∀ st account, latestRow st (tableName account) = none →
      fetch_user_assets st account = Except.error SqlxError.rowNotFound) ∧
    (∀ st account, st.listings.find? (fun e => e.1 = account) = none →
      handle_notification st { account := account, action := "account_update" } = []) ∧
    (∀ st account, latestRow st (tableName account) = none →
      handle_notification st { account := account, action := "user_update" } = []) := by
  have hfl : ∀ st account, (st : DbState).listings.find? (fun e => e.1 = account) = none →
      fetch_listing st account = Except.ok none := by
    intro st account h
    unfold fetch_listing
    rw [h]
    rfl
  have hfu : ∀ st account, latestRow st (tableName account) = none →
      fetch_user_assets st account = Except.error SqlxError.rowNotFound := by
    intro st account h
    unfold fetch_user_assets
    rw [h]
  refine ⟨hfl, hfu, ?_, ?_⟩
  · intro st account h
    unfold handle_notification
    rw [if_pos rfl, hfl st account h]
  · intro st account h
    unfold handle_notification
    dsimp only
    rw [if_neg (by decide), if_pos rfl, hfu st account h]

theorem fetch_absence_handling_witness :
    latestRow emptyState (tableName "someuser") = none ∧
    handle_notification emptyState { account := "someuser", action := "user_update" } = [] :=
  ⟨rfl, fetch_absence_handling.2.2.2 emptyState "someuser" rfl⟩

theorem update_user_sol_balance_listings (st : DbState) (o : DbOracle) (now : Nat)
    (u : String) (l : Nat) :
    (update_user_sol_balance st o now u l).1.listings = st.listings := by
  unfold update_user_sol_balance
  dsimp only
  split <;> split <;> rfl

theorem update_user_token_holding_listings (st : DbState) (o : DbOracle) (now : Nat)
    (u m : String) (a : Nat) :
    (update_user_token_holding st o now u m a).1.listings = st.listings := by
  unfold update_user_token_holding
  dsimp only
  by_cases hw : o.tokenWriteOk = true
  · rw [if_pos hw]
    by_cases hn : o.tokenNotifyOk = true
    · rw [if_pos hn]
      rfl
    · rw [if_neg hn]
      rfl
  · rw [if_neg hw]

theorem userSolStep_listings (st : DbState) (o : DbOracle) (now : Nat)
    (us : Option (List String)) (a : String) (l : Nat) :
    (userSolStep st o now us a l).1.listings = st.listings := by
  unfold userSolStep
  rcases us with _ | users
  · rfl
  · dsimp only
    split
    · exact update_user_sol_balance_listings ..
    · rfl

theorem userTokenStep_listings (st : DbState) (o : DbOracle) (now : Nat)
    (us : Option (List String)) (info : AccountInfo) :
    (userTokenStep st o now us info).1.listings = st.listings := by
  unfold userTokenStep
  rcases us with _ | users
  · rfl
  · dsimp only
    split
    · split
      · split
        · exact update_user_token_holding_listings ..
        · rfl
      · rfl
    · rfl

theorem update_listing_listings_congr (o : DbOracle) (now : Nat) (acct : String)
    (al : AnchorListing) (s t : DbState) (h : s.listings = t.listings) :
    (update_listing s o now acct al).listings = (update_listing t o now acct al).listings := by
  rw [update_listing_listings, update_listing_listings, h]

theorem programsBranch_listings (o : DbOracle) (now : Nat) (a : String)
    (info : AccountInfo) :
    ∀ (programs : List (List Nat)) (s t : DbState), s.listings = t.listings →
      (programsBranch o now programs a info s).listings =
        (programsBranch o now programs a info t).listings := by
  intro programs
  induction programs with
  | nil => intro s t h; exact h
  | cons p ps ih =>
    intro s t h
    unfold programsBranch
    simp only [List.foldl_cons]
    have hstep : (if p = info.owner then
        (if info.data.length > 8 then
          match deserializeAnchorListing (info.data.drop 8) with
          | some (al, _) => update_listing s o now a al
          | none => s
        else s)
      else s).listings =
        (if p = info.owner then
          (if info.data.length > 8 then
            match deserializeAnchorListing (info.data.drop 8) with
            | some (al, _) => update_listing t o now a al
            | none => t
          else t)
        else t).listings := by
      split
      · split
        · split
          · exact update_listing_listings_congr o now a _ s t h
          · exact h
        · exact h
      · exact h
    exact ih _ _ hstep

/-- An event whose account is a tracked user, whose owner is the token
program (itself also in the tracked-program list), and whose 165-byte
payload both unpacks as a token account owned by that tracked user and
borsh-decodes as a listing after the 8-byte discriminator. -/
def cexTokenEvent : AccountInfo :=
  { pubkey := List.replicate 32 0, lamports := 0, owner := splTokenProgramId,
    data := List.replicate 108 0 ++ [1] ++ List.replicate 56 0 }

/-- The tracked user of `cexTokenEvent` (base-58 of 32 zero bytes). -/
def cexUser : String := bs58encode (List.replicate 32 0)

/-- C2: the three ingestion branches are independent: for every
`V0_0_3` event, whatever each branch's database calls do (any oracle —
in particular any combination of write and fetch failures), the whole
event completes `Ok` and no branch is aborted (the fetched holdings
row always decodes, since the pipeline only ever writes non-NULL jsonb
columns), and the tracked-program listing branch runs exactly as it
would on the store directly, unaffected by the two user branches; on
`cexTokenEvent` — a concrete event for which all three branch
conditions hold — all three branches fire: two snapshot rows are
appended, the listing is upserted, and three notifications are
published. -/
theorem update_account_branch_independence :
    (∀ st (o : DbOracle) now programs users info,
      (update_account st o now programs users (ReplicaAccountInfo.v0_0_3 info)).2 =
        Except.ok ()) ∧
    (∀ st (o : DbOracle) now programs users info,
      (update_account st o now programs users (ReplicaAccountInfo.v0_0_3 info)).1.listings =
        (programsBranch o now programs (bs58encode info.pubkey) info st).listings) ∧
    ((update_account emptyState allOkOracle 0 [splTokenProgramId] (some [cexUser])
        (ReplicaAccountInfo.v0_0_3 cexTokenEvent)).1.users (tableName cexUser)).length = 2 ∧
    (update_account emptyState allOkOracle 0 [splTokenProgramId] (some [cexUser])
        (ReplicaAccountInfo.v0_0_3 cexTokenEvent)).1.listings ≠ [] ∧
    (update_account emptyState allOkOracle 0 [splTokenProgramId] (some [cexUser])
        (ReplicaAccountInfo.v0_0_3 cexTokenEvent)).1.notes =
      [{ channel := "user_updates", account := cexUser, action := "user_update" },
       { channel := "user_updates", account := cexUser, action := "user_update" },
       { channel := "account_updates", account := cexUser, action := "account_update" }] := by
  refine ⟨update_account_v3_result, ?_, by decide, by decide, by decide⟩
  intro st o now programs users info
  unfold update_account
  dsimp only
  split
  next st1 e heq =>
    have hres := userSolStep_result st o now users (bs58encode info.pubkey) info.lamports
    rw [heq] at hres
    exact absurd hres (by simp)
  next st1 heq =>
    split
    next st2 e heq2 =>
      have hres := userTokenStep_result st1 o now users info
      rw [heq2] at hres
      exact absurd hres (by simp)
    next st2 heq2 =>
      dsimp only
      apply programsBranch_listings
      have h1 : st1.listings = st.listings := by
        have hl := userSolStep_listings st o now users (bs58encode info.pubkey) info.lamports
        rw [heq] at hl
        exact hl
      have h2 : st2.listings = st1.listings := by
        have hl := userTokenStep_listings st1 o now users info
        rw [heq2] at hl
        exact hl
      rw [h2, h1]

theorem upsert_listing_idempotent_witness :
    ∃ r1 r2,
      (update_listing emptyState allOkOracle 3 "acct" maxU128Listing).listings.find?
        (fun e => e.1 = "acct") = some ("acct", r1) ∧
      (update_listing (update_listing emptyState allOkOracle 3 "acct" maxU128Listing)
          allOkOracle 5 "acct" maxU128Listing).listings.find?
        (fun e => e.1 = "acct") = some ("acct", r2) ∧
      { r2 with updated_at := r1.updated_at } = r1 ∧ r1.updated_at ≤ r2.updated_at :=
  upsert_listing_idempotent.2.2.2 emptyState allOkOracle 3 5 "acct" maxU128Listing rfl
    (by omega)
